import Mathlib

/-!
Shallow embedding of the line reassembler and HTML renderer of
`src/diff_data.py` from the WayDiffer repository: the functions
`process_op`, `process_temp`, `process_line`, and the line-reassembly loop
plus final flush inside `process_diff`, together with theorems about the
behaviour of these functions.

Text is modelled as `List Char`; diff operation kinds as `Int`
(diff_match_patch uses the integers -1, 1, 0 for DELETE, INSERT, EQUAL).
A Line Record is modelled as a pair (line number, inner HTML); the real code
interpolates both into a fixed div template string, which adds no further
information.  Python exceptions (the `UnboundLocalError` that the final
flush can raise) are modelled with `Except Unit`.
-/

namespace WayDiffer

/-- Text is modelled as a list of characters. -/
abbrev Chars := List Char

/-- View a string literal as its character list. -/
def str (s : String) : Chars := s.data

/-- diff_match_patch.DIFF_DELETE. -/
def DIFF_DELETE : Int := -1

/-- diff_match_patch.DIFF_INSERT. -/
def DIFF_INSERT : Int := 1

/-- diff_match_patch.DIFF_EQUAL. -/
def DIFF_EQUAL : Int := 0

/-- Embedding of `process_op` (diff_data.py:283-301): map a diff operation
kind to its CSS class, `None` for everything that is not INSERT or DELETE. -/
def process_op (op : Int) : Option Chars :=
  if op = DIFF_INSERT then some (str "added")
  else if op = DIFF_DELETE then some (str "deleted")
  else none

/-- Embedding of Python single-character `str.replace`: every occurrence of
the character `c` is replaced by the string `new`. -/
def replaceChar (c : Char) (new : Chars) : Chars → Chars
  | [] => []
  | a :: rest => (if a = c then new else [a]) ++ replaceChar c new rest

/-- The HTML entity `&nbsp;`. -/
def nbsp : Chars := str "&nbsp;"

/-- Embedding of the escaping in `process_temp` (diff_data.py:333):
`temp_line.replace(" ", "&nbsp;").replace("\t", "&nbsp;" * 4)`. -/
def escapeData (s : Chars) : Chars :=
  replaceChar '\t' (nbsp ++ nbsp ++ nbsp ++ nbsp) (replaceChar ' ' nbsp s)

/-- Embedding of the loop body of `process_temp` (diff_data.py:331-338):
render one buffered (kind, text) pair as HTML. -/
def renderPair (p : Int × Chars) : Chars :=
  match process_op p.1 with
  | some cls =>
      str "<span class=\"" ++ cls ++ str "\">" ++ escapeData p.2 ++ str "</span>"
  | none => escapeData p.2

/-- Embedding of `process_temp` (diff_data.py:304-343): append `(op, line)`
to the buffer, render the whole buffer to HTML, and return the HTML together
with the (possibly cleared) buffer. -/
def process_temp (op : Int) (line : Chars) (temp : List (Int × Chars))
    (clear_temp : Bool) : Chars × List (Int × Chars) :=
  let temp2 := temp ++ [(op, line)]
  let line_html := (temp2.map renderPair).foldl (fun a b => a ++ b) []
  (line_html, if clear_temp then [] else temp2)

/-- Embedding of the Python membership test `"\n" in text`. -/
def containsNl : Chars → Bool
  | [] => false
  | c :: rest => c = '\n' || containsNl rest

/-- Embedding of Python `text.split("\n")` (non-empty separator semantics:
the result always has one more element than the number of newlines). -/
def splitNl : Chars → List Chars
  | [] => [[]]
  | c :: rest =>
    if c = '\n' then [] :: splitNl rest
    else
      match splitNl rest with
      | [] => [[c]]
      | h :: t => (c :: h) :: t

/-- Embedding of `process_line` (diff_data.py:346-371): categorise a
fragment into a partial segment, whole line segments, and a remaining tail.
The first component models `partial`, the second `whole_lines`, the third
`remaining`. -/
def process_line (text : Chars) :
    Option Chars × Option (List Chars) × Option Chars :=
  if containsNl text then
    let split_data := splitNl text
    let whole_lines := split_data.dropLast
    let lastSeg := split_data.getLast?.getD []
    (none, some whole_lines, if lastSeg ≠ [] then some lastSeg else none)
  else (some text, none, none)

/-- Python truthiness of an `Optional[str]` value: `None` and the empty
string are falsy. -/
def truthyStr : Option Chars → Bool
  | none => false
  | some s => !s.isEmpty

/-- Python truthiness of an `Optional[list]` value: `None` and the empty
list are falsy. -/
def truthyList : Option (List Chars) → Bool
  | none => false
  | some l => !l.isEmpty

/-- The mutable state of the reassembly loop in `process_diff`
(diff_data.py:404-434): the emitted Line Records (`diff_content`, kept as
(line number, inner HTML) pairs), the next line number, the pending buffer
`temp`, and the current values of the Python loop variables `op` and `line`
(`none` models a variable that has not been assigned yet, so that the stale
reads in the final flush are faithfully captured). -/
structure LoopState where
  diff_content : List (Nat × Chars)
  line_number : Nat
  temp : List (Int × Chars)
  lastOp : Option Int
  lastLine : Option Chars
deriving DecidableEq, Repr

/-- The loop state before the first operation (diff_data.py:404-411). -/
def initState : LoopState :=
  { diff_content := [], line_number := 1, temp := [], lastOp := none,
    lastLine := none }

/-- Embedding of the inner `for line in whole_lines` loop body
(diff_data.py:423-431): complete one line from the buffer. -/
def wholeLineStep (op : Int) (t : LoopState) (ln : Chars) : LoopState :=
  let r := process_temp op ln t.temp true
  { t with
      temp := r.2
      diff_content := t.diff_content ++ [(t.line_number, r.1)]
      line_number := t.line_number + 1
      lastLine := some ln }

/-- Embedding of one iteration of `for op, data in diffs`
(diff_data.py:413-434). -/
def stepOp (s : LoopState) (od : Int × Chars) : LoopState :=
  let op := od.1
  let pl := process_line od.2
  let s0 := { s with lastOp := some op }
  let s1 :=
    if truthyStr pl.1 then
      { s0 with temp := s0.temp ++ [(op, pl.1.getD [])] }
    else if truthyList pl.2.1 then
      (pl.2.1.getD []).foldl (wholeLineStep op) s0
    else s0
  if truthyStr pl.2.2 then
    { s1 with temp := s1.temp ++ [(op, (pl.2.2).getD [])] }
  else s1

/-- The whole reassembly loop of `process_diff` run on an operation
sequence. -/
def runLoop (diffs : List (Int × Chars)) : LoopState :=
  diffs.foldl stepOp initState

/-- Embedding of the final flush after the loop (diff_data.py:436-441):
`if len(temp) > 0: line_html, temp = process_temp(op, line, temp, True)`.
It reads the stale loop variables `op` and `line`; reading `line` when the
inner loop never ran raises `UnboundLocalError`, modelled as
`Except.error ()`. -/
def flushState (s : LoopState) : Except Unit (List (Nat × Chars)) :=
  if s.temp.length > 0 then
    match s.lastOp, s.lastLine with
    | some op, some ln =>
        let r := process_temp op ln s.temp true
        Except.ok (s.diff_content ++ [(s.line_number, r.1)])
    | _, _ => Except.error ()
  else Except.ok s.diff_content

/-- The line reassembler of `process_diff` (loop plus final flush) as a
function from an operation sequence to the emitted Line Records (or an
exception). -/
def processDiffCore (diffs : List (Int × Chars)) :
    Except Unit (List (Nat × Chars)) :=
  flushState (runLoop diffs)

/-- The observable outcome of `process_diff` (diff_data.py:374-459). -/
inductive DiffOutcome where
  | noResult
  | sameContent
  | htmlPage (records : List (Nat × Chars))
  | raised
deriving DecidableEq, Repr

/-- Embedding of the control flow of `process_diff` (diff_data.py:374-459)
over already-fetched contents: `None` or empty content short-circuits to
`None`; identical contents return the sentinel `"SAME CONTENT"`; otherwise
the diff engine (an external collaborator, passed as a parameter) produces
the operation sequence that the reassembler consumes. -/
def process_diff (diffEngine : Chars → Chars → List (Int × Chars))
    (content1 content2 : Option Chars) : DiffOutcome :=
  match content1, content2 with
  | some c1, some c2 =>
    if c1.isEmpty || c2.isEmpty then DiffOutcome.noResult
    else if c1 = c2 then DiffOutcome.sameContent
    else
      match processDiffCore (diffEngine c1 c2) with
      | Except.ok recs => DiffOutcome.htmlPage recs
      | Except.error _ => DiffOutcome.raised
  | _, _ => DiffOutcome.noResult

/-! Reference definitions written from the spec's words, used to state the
refinement/invariant claims and compared against the source-derived
definitions above. -/

/-- From the spec's words: character-level escaping — each space becomes one
non-breaking-space entity, each tab four of them, all other characters are
unchanged. -/
def escapeCharSpec (c : Char) : Chars :=
  if c = ' ' then nbsp
  else if c = '\t' then nbsp ++ nbsp ++ nbsp ++ nbsp
  else [c]

/-- From the spec's words: escape a text character by character. -/
def escapeSpec (s : Chars) : Chars :=
  s.foldr (fun c acc => escapeCharSpec c ++ acc) []

/-- From the spec's words: render one (kind, text) pair — escaped text
wrapped in a span of class `added` for INSERT, `deleted` for DELETE, and
bare otherwise. -/
def renderPairSpec (p : Int × Chars) : Chars :=
  if p.1 = DIFF_INSERT then
    str "<span class=\"added\">" ++ escapeSpec p.2 ++ str "</span>"
  else if p.1 = DIFF_DELETE then
    str "<span class=\"deleted\">" ++ escapeSpec p.2 ++ str "</span>"
  else escapeSpec p.2

/-- Concatenate a list of texts in order. -/
def joinList (l : List Chars) : Chars :=
  l.foldr (fun a b => a ++ b) []

/-- The text after the last newline of a string (the whole string when it
contains no newline): the unterminated tail in the sense of the spec. -/
def tailAfterLastNewline : Chars → Chars
  | [] => []
  | c :: rest =>
    if containsNl rest then tailAfterLastNewline rest
    else if c = '\n' then rest else c :: rest

/-- The segments of a string that stand before each of its newline
characters, in order (and nothing for the text after the last newline). -/
def linesBefore : Chars → List Chars
  | [] => []
  | c :: rest =>
    if c = '\n' then [] :: linesBefore rest
    else
      match linesBefore rest with
      | [] => []
      | h :: t => (c :: h) :: t

/-- From the spec's words: how the Pending Buffer evolves across one
operation — a fragment with no newline is appended to the buffer (an empty
fragment contributes nothing); a fragment containing a newline completes the
buffered line(s), so the buffer afterwards holds exactly the fragment's
non-empty tail after its last newline, or nothing. -/
def specTailStep (buf : List (Int × Chars)) (od : Int × Chars) :
    List (Int × Chars) :=
  if containsNl od.2 then
    if tailAfterLastNewline od.2 = [] then []
    else [(od.1, tailAfterLastNewline od.2)]
  else if od.2 = [] then buf else buf ++ [(od.1, od.2)]

/-- From the spec's words: the Pending Buffer expected after processing an
operation sequence — only the fragments seen since the most recent completed
line, in append order. -/
def specTail (diffs : List (Int × Chars)) : List (Int × Chars) :=
  diffs.foldl specTailStep []

/-- The concatenation of all fragments of an operation sequence. -/
def joinData (diffs : List (Int × Chars)) : Chars :=
  joinList (diffs.map (fun p => p.2))

/-- The concatenation of the texts of a buffer's pairs. -/
def joinTexts (buf : List (Int × Chars)) : Chars :=
  joinList (buf.map (fun p => p.2))

/-! Helper lemmas about newlines, splitting and joining. -/

theorem containsNl_append (x y : Chars) :
    containsNl (x ++ y) = (containsNl x || containsNl y) := by
  induction x with
  | nil => simp [containsNl]
  | cons c xs ih => simp [containsNl, ih, Bool.or_assoc]

theorem tailAfterLastNewline_of_not_containsNl (s : Chars)
    (h : containsNl s = false) : tailAfterLastNewline s = s := by
  induction s with
  | nil => rfl
  | cons c rest ih =>
    simp only [containsNl, Bool.or_eq_false_iff, decide_eq_false_iff_not] at h
    rw [tailAfterLastNewline]
    simp [h.1, h.2]

theorem linesBefore_of_not_containsNl (s : Chars)
    (h : containsNl s = false) : linesBefore s = [] := by
  induction s with
  | nil => rfl
  | cons c rest ih =>
    simp only [containsNl, Bool.or_eq_false_iff, decide_eq_false_iff_not] at h
    rw [linesBefore]
    simp [h.1, ih h.2]

theorem linesBefore_ne_nil_of_containsNl (s : Chars)
    (h : containsNl s = true) : linesBefore s ≠ [] := by
  induction s with
  | nil => simp [containsNl] at h
  | cons c rest ih =>
    rw [linesBefore]
    by_cases hc : c = '\n'
    · simp [hc]
    · simp only [containsNl, Bool.or_eq_true, decide_eq_true_eq] at h
      rcases h with h | h
      · exact absurd h hc
      · cases hl : linesBefore rest with
        | nil => exact absurd hl (ih h)
        | cons a t => simp [hc, hl]

theorem splitNl_eq (s : Chars) :
    splitNl s = linesBefore s ++ [tailAfterLastNewline s] := by
  induction s with
  | nil => rfl
  | cons c rest ih =>
    by_cases hc : c = '\n'
    · subst hc
      rw [splitNl, linesBefore, tailAfterLastNewline]
      by_cases hr : containsNl rest
      · simp [hr, ih]
      · simp [hr, ih, tailAfterLastNewline_of_not_containsNl rest (by simpa using hr)]
    · rw [splitNl, linesBefore, tailAfterLastNewline]
      by_cases hr : containsNl rest
      · cases hl : linesBefore rest with
        | nil => exact absurd hl (linesBefore_ne_nil_of_containsNl rest hr)
        | cons a t => simp [hc, hr, ih, hl]
      · simp [hc, hr, ih, linesBefore_of_not_containsNl rest (by simpa using hr),
          tailAfterLastNewline_of_not_containsNl rest (by simpa using hr)]

theorem process_line_eq (text : Chars) :
    process_line text =
      if containsNl text then
        (none, some (linesBefore text),
          if tailAfterLastNewline text = [] then none
          else some (tailAfterLastNewline text))
      else (some text, none, none) := by
  rw [process_line]
  by_cases h : containsNl text
  · simp only [h, if_true, splitNl_eq, List.dropLast_concat, List.getLast?_concat,
      Option.getD_some]
    by_cases ht : tailAfterLastNewline text = [] <;> simp [ht]
  · simp [h]

theorem joinList_nil : joinList [] = [] := rfl

theorem joinList_cons (a : Chars) (l : List Chars) :
    joinList (a :: l) = a ++ joinList l := rfl

theorem joinList_append (l l' : List Chars) :
    joinList (l ++ l') = joinList l ++ joinList l' := by
  induction l with
  | nil => simp [joinList_nil]
  | cons a t ih => simp [joinList_cons, ih, List.append_assoc]

theorem joinList_concat (l : List Chars) (a : Chars) :
    joinList (l ++ [a]) = joinList l ++ a := by
  rw [joinList_append, joinList_cons, joinList_nil, List.append_nil]

theorem foldl_append_eq_joinList (l : List Chars) :
    ∀ a : Chars, l.foldl (fun x y => x ++ y) a = a ++ joinList l := by
  induction l with
  | nil => intro a; simp [joinList_nil]
  | cons b t ih => intro a; simp [List.foldl, ih, joinList_cons, List.append_assoc]

theorem tailAfterLastNewline_append (x y : Chars) :
    tailAfterLastNewline (x ++ y) =
      if containsNl y then tailAfterLastNewline y
      else tailAfterLastNewline x ++ y := by
  induction x with
  | nil =>
    by_cases hy : containsNl y
    · simp [hy]
    · simp [hy, tailAfterLastNewline_of_not_containsNl y (by simpa using hy),
        tailAfterLastNewline]
  | cons c xs ih =>
    rw [List.cons_append, tailAfterLastNewline, containsNl_append, tailAfterLastNewline]
    by_cases hy : containsNl y
    · simp [hy, ih]
    · by_cases hxs : containsNl xs
      · simp [hy, hxs, ih]
      · by_cases hc : c = '\n' <;> simp [hy, hxs, hc, ih]

/-! Helper lemmas about the reassembly loop. -/

theorem runLoop_concat (l : List (Int × Chars)) (od : Int × Chars) :
    runLoop (l ++ [od]) = stepOp (runLoop l) od := by
  simp [runLoop, List.foldl_append]

theorem specTail_concat (l : List (Int × Chars)) (od : Int × Chars) :
    specTail (l ++ [od]) = specTailStep (specTail l) od := by
  simp [specTail, List.foldl_append]

theorem joinData_concat (l : List (Int × Chars)) (od : Int × Chars) :
    joinData (l ++ [od]) = joinData l ++ od.2 := by
  simp [joinData, List.map_append, joinList_concat]

theorem joinTexts_concat (buf : List (Int × Chars)) (p : Int × Chars) :
    joinTexts (buf ++ [p]) = joinTexts buf ++ p.2 := by
  simp [joinTexts, List.map_append, joinList_concat]

theorem wholeLineStep_temp (op : Int) (s : LoopState) (ln : Chars) :
    (wholeLineStep op s ln).temp = [] := rfl

theorem wholeFold_temp (op : Int) (wl : List Chars) :
    ∀ s : LoopState,
      (wl.foldl (wholeLineStep op) s).temp = if wl.isEmpty then s.temp else [] := by
  induction wl with
  | nil => intro s; simp
  | cons x t ih =>
    intro s
    rw [List.foldl_cons, ih]
    by_cases ht : t.isEmpty <;> simp [ht, wholeLineStep_temp]

/-- How one loop iteration transforms the pending buffer. -/
theorem stepOp_temp (s : LoopState) (od : Int × Chars) :
    (stepOp s od).temp =
      if containsNl od.2 then
        if tailAfterLastNewline od.2 = [] then []
        else [(od.1, tailAfterLastNewline od.2)]
      else if od.2 = [] then s.temp else s.temp ++ [(od.1, od.2)] := by
  obtain ⟨op, data⟩ := od
  rw [stepOp]
  simp only [process_line_eq]
  by_cases hd : containsNl data
  · have hlb := linesBefore_ne_nil_of_containsNl data hd
    by_cases htl : tailAfterLastNewline data = []
    · simp [hd, htl, truthyStr, truthyList, List.isEmpty_iff, hlb, wholeFold_temp]
    · simp [hd, htl, truthyStr, truthyList, List.isEmpty_iff, hlb, wholeFold_temp]
  · by_cases hde : data = []
    · subst hde
      simp [truthyStr, truthyList, containsNl]
    · simp [hd, hde, truthyStr, truthyList, List.isEmpty_iff]

/-- The Pending Buffer invariant, in the strengthened form used for the
induction: after any prefix of the operation stream the loop's `temp` equals
the spec-level buffer, all buffered texts are non-empty, and their
concatenation is the text after the last newline of everything consumed so
far. -/
theorem runLoop_temp_spec (pre : List (Int × Chars)) :
    (runLoop pre).temp = specTail pre ∧
      (∀ p ∈ (runLoop pre).temp, p.2 ≠ []) ∧
      joinTexts (runLoop pre).temp = tailAfterLastNewline (joinData pre) := by
  induction pre using List.reverseRecOn with
  | nil =>
    refine ⟨rfl, ?_, rfl⟩
    intro p hp
    simp [runLoop, initState] at hp
  | append_singleton l od ih =>
    obtain ⟨hspec, hmem, hjoin⟩ := ih
    rw [runLoop_concat, specTail_concat, joinData_concat, stepOp_temp]
    obtain ⟨op, data⟩ := od
    dsimp only
    rw [tailAfterLastNewline_append]
    by_cases hd : containsNl data
    · by_cases htl : tailAfterLastNewline data = []
      · refine ⟨?_, ?_, ?_⟩
        · simp [hd, htl, specTailStep]
        · intro p hp; simp [hd, htl] at hp
        · simp [hd, htl, joinTexts, joinList_nil]
      · refine ⟨?_, ?_, ?_⟩
        · simp [hd, htl, specTailStep]
        · intro p hp
          simp [hd, htl] at hp
          subst hp
          exact htl
        · simp [hd, htl, joinTexts, joinList_cons, joinList_nil]
    · by_cases hde : data = []
      · subst hde
        refine ⟨?_, ?_, ?_⟩
        · simpa [hd, specTailStep] using hspec
        · simpa [hd] using hmem
        · simpa [hd] using hjoin
      · refine ⟨?_, ?_, ?_⟩
        · simp only [hd, hde, if_neg, Bool.false_eq_true, if_false, specTailStep]
          rw [hspec]
        · intro p hp
          simp only [hd, Bool.false_eq_true, if_false, hde] at hp
          rcases List.mem_append.1 hp with hp | hp
          · exact hmem p hp
          · simp at hp
            subst hp
            exact hde
        · simp only [hd, hde, Bool.false_eq_true, if_false]
          rw [joinTexts_concat, hjoin]

/-! Helper lemmas about escaping and rendering. -/

theorem replaceChar_nil (c : Char) (new : Chars) : replaceChar c new [] = [] := rfl

theorem replaceChar_cons (c : Char) (new : Chars) (a : Char) (rest : Chars) :
    replaceChar c new (a :: rest) =
      (if a = c then new else [a]) ++ replaceChar c new rest := rfl

theorem replaceChar_append (c : Char) (new : Chars) (x y : Chars) :
    replaceChar c new (x ++ y) =
      replaceChar c new x ++ replaceChar c new y := by
  induction x with
  | nil => rfl
  | cons a t ih => simp [replaceChar_cons, ih, List.append_assoc]

theorem escapeData_cons (c : Char) (rest : Chars) :
    escapeData (c :: rest) = escapeCharSpec c ++ escapeData rest := by
  rw [escapeData, escapeData, replaceChar_cons, replaceChar_append]
  congr 1
  by_cases hc : c = ' '
  · subst hc
    decide
  · by_cases ht : c = '\t'
    · subst ht
      decide
    · simp [escapeCharSpec, hc, ht, replaceChar_cons, replaceChar_nil]

theorem escapeSpec_cons (c : Char) (rest : Chars) :
    escapeSpec (c :: rest) = escapeCharSpec c ++ escapeSpec rest := rfl

theorem escapeData_eq_escapeSpec (s : Chars) : escapeData s = escapeSpec s := by
  induction s with
  | nil => rfl
  | cons c rest ih => rw [escapeData_cons, escapeSpec_cons, ih]

theorem process_op_none (op : Int) (h1 : op ≠ DIFF_INSERT) (h2 : op ≠ DIFF_DELETE) :
    process_op op = none := by
  simp [process_op, h1, h2]

theorem span_open_added :
    str "<span class=\"" ++ str "added" ++ str "\">" = str "<span class=\"added\">" := by
  decide

theorem span_open_deleted :
    str "<span class=\"" ++ str "deleted" ++ str "\">" = str "<span class=\"deleted\">" := by
  decide

theorem renderPair_eq_renderPairSpec (p : Int × Chars) :
    renderPair p = renderPairSpec p := by
  obtain ⟨k, t⟩ := p
  by_cases h1 : k = DIFF_INSERT
  · subst h1
    have hL : renderPair (DIFF_INSERT, t) =
        str "<span class=\"" ++ str "added" ++ str "\">" ++ escapeData t ++
          str "</span>" := rfl
    have hR : renderPairSpec (DIFF_INSERT, t) =
        str "<span class=\"added\">" ++ escapeSpec t ++ str "</span>" := rfl
    rw [hL, hR, escapeData_eq_escapeSpec, span_open_added]
  · by_cases h2 : k = DIFF_DELETE
    · subst h2
      have hL : renderPair (DIFF_DELETE, t) =
          str "<span class=\"" ++ str "deleted" ++ str "\">" ++ escapeData t ++
            str "</span>" := rfl
      have hR : renderPairSpec (DIFF_DELETE, t) =
          str "<span class=\"deleted\">" ++ escapeSpec t ++ str "</span>" := rfl
      rw [hL, hR, escapeData_eq_escapeSpec, span_open_deleted]
    · simp [renderPair, renderPairSpec, process_op_none k h1 h2, h1, h2,
        escapeData_eq_escapeSpec]

/-! Theorems. -/

/-- Claim C1: on `[(EQUAL, "ab"), (INSERT, "c\n"), (EQUAL, "d")]` the claim
predicts line 2 with inner HTML `d`; the code instead emits line 2 with
inner HTML `dc`, because the final flush calls
`process_temp(op, line, temp, clear_temp=True)` with the stale inner-loop
variable `line` (still holding the last completed whole line `"c"`), which
re-appends `(EQUAL, "c")` to the pending buffer.  This theorem evaluates
the embedded reassembler at that exact input. -/
theorem c1_flush_stale_line_eval :
    processDiffCore
        [(DIFF_EQUAL, str "ab"), (DIFF_INSERT, str "c\n"), (DIFF_EQUAL, str "d")] =
      Except.ok
        [(1, str "ab<span class=\"added\">c</span>"), (2, str "dc")] := rfl

/-- Claim C2: the claim says the reassembler never raises on a well-formed
operation sequence, but on `[(EQUAL, "ab")]` (a single operation with no
newline) the pending buffer is non-empty at end-of-stream while the inner
loop variable `line` was never assigned, so the final flush raises
`UnboundLocalError`.  This theorem evaluates the embedded reassembler at
that input to the error outcome. -/
theorem c2_unbound_local_eval :
    processDiffCore [(DIFF_EQUAL, str "ab")] = Except.error () := rfl

/-- Claim C3: the claim says the de-styled text of the emitted records,
joined with newlines, always equals the concatenation of the input
fragments.  On `[(EQUAL, "a\n"), (EQUAL, "b")]` the code emits records
`a` and `ba` (no spans involved): the stale flush duplicates the already
emitted line `a`, so the de-styled join `a\nba` differs from the input
concatenation `a\nb`. -/
theorem c3_duplication_eval :
    processDiffCore [(DIFF_EQUAL, str "a\n"), (DIFF_EQUAL, str "b")] =
        Except.ok [(1, str "a"), (2, str "ba")] ∧
      joinList [str "a", str "\n", str "ba"] ≠
        joinData [(DIFF_EQUAL, str "a\n"), (DIFF_EQUAL, str "b")] :=
  ⟨rfl, by decide⟩

/-- Claim C4: on `[(INSERT, "xy")]` the fragments contain no newline and
their concatenation is non-empty, so the claim predicts exactly one emitted
Line Record; the code instead raises `UnboundLocalError` in the final flush
and emits nothing. -/
theorem c4_count_violated_eval :
    processDiffCore [(DIFF_INSERT, str "xy")] = Except.error () ∧
      containsNl (joinData [(DIFF_INSERT, str "xy")]) = false ∧
      joinData [(DIFF_INSERT, str "xy")] ≠ [] :=
  ⟨rfl, rfl, by decide⟩

/-- Claim C7: when both fetched documents are present, non-empty and equal,
`process_diff` returns the sentinel `"SAME CONTENT"`; the result does not
depend on the diff engine at all (the quantification over `diffEngine`
shows the line reassembly loop is never executed). -/
theorem c7_same_content (diffEngine : Chars → Chars → List (Int × Chars))
    (c : Chars) (h : c ≠ []) :
    process_diff diffEngine (some c) (some c) = DiffOutcome.sameContent := by
  have he : c.isEmpty = false := by
    cases c with
    | nil => exact absurd rfl h
    | cons a l => rfl
  simp [process_diff, he]

/-- Witness for C7 at a concrete non-empty document and a concrete diff
engine. -/
theorem c7_same_content_witness :
    str "x" ≠ [] ∧
      process_diff (fun a _ => [(DIFF_EQUAL, a)]) (some (str "x"))
          (some (str "x")) =
        DiffOutcome.sameContent :=
  ⟨by decide, c7_same_content (fun a _ => [(DIFF_EQUAL, a)]) (str "x") (by decide)⟩

/-- Claim C8: an operation kind that is neither INSERT nor DELETE gets no
CSS class from `process_op` and is rendered by `process_temp` exactly like
EQUAL (bare text, no wrapping span).  Both functions are total, so no
exception can arise from an unrecognized kind. -/
theorem c8_unknown_kind_like_equal (op : Int) (line : Chars)
    (temp : List (Int × Chars)) (clear : Bool)
    (h1 : op ≠ DIFF_INSERT) (h2 : op ≠ DIFF_DELETE) :
    process_op op = none ∧
      (process_temp op line temp clear).1 =
        (process_temp DIFF_EQUAL line temp clear).1 := by
  have hop : process_op op = none := by simp [process_op, h1, h2]
  have heq : process_op DIFF_EQUAL = none := rfl
  refine ⟨hop, ?_⟩
  simp [process_temp, List.map_append, renderPair, hop, heq]

/-- Witness for C8 at the concrete unrecognized kind 7. -/
theorem c8_unknown_kind_like_equal_witness :
    (7 : Int) ≠ DIFF_INSERT ∧ (7 : Int) ≠ DIFF_DELETE ∧
      (process_op 7 = none ∧
        (process_temp 7 (str "x") [] true).1 =
          (process_temp DIFF_EQUAL (str "x") [] true).1) :=
  ⟨by decide, by decide,
    c8_unknown_kind_like_equal 7 (str "x") [] true (by decide) (by decide)⟩

/-- Claim C10: a lone `"\n"` fragment with kind INSERT (resp. DELETE)
arriving on an empty pending buffer completes exactly one line whose inner
HTML is a single empty classed span, and leaves the buffer empty. -/
theorem c10_empty_line_span (s : LoopState) (h : s.temp = []) :
    stepOp s (DIFF_INSERT, str "\n") =
        { s with
            diff_content :=
              s.diff_content ++ [(s.line_number, str "<span class=\"added\"></span>")]
            line_number := s.line_number + 1
            lastOp := some DIFF_INSERT
            lastLine := some [] } ∧
      stepOp s (DIFF_DELETE, str "\n") =
        { s with
            diff_content :=
              s.diff_content ++
                [(s.line_number, str "<span class=\"deleted\"></span>")]
            line_number := s.line_number + 1
            lastOp := some DIFF_DELETE
            lastLine := some [] } := by
  obtain ⟨dc, ln, tp, lo, ll⟩ := s
  simp only at h
  subst h
  exact ⟨rfl, rfl⟩

/-- Claim C5: between consecutive operations the pending buffer `temp`
holds exactly the (kind, text) pairs of the unterminated tail — only the
fragments seen since the most recent completed line, in append order (the
spec-level buffer `specTail`); the concatenation of the buffered texts is
precisely the text after the last newline of everything consumed so far;
the buffer is empty exactly when the output built so far ends at a line
boundary; and completing a line (any call of `process_temp` with
`clear_temp = True`, which is also how the end-of-stream flush runs)
empties the buffer. -/
theorem c5_pending_buffer_invariant (pre : List (Int × Chars)) :
    (runLoop pre).temp = specTail pre ∧
      joinTexts (runLoop pre).temp = tailAfterLastNewline (joinData pre) ∧
      ((runLoop pre).temp = [] ↔ tailAfterLastNewline (joinData pre) = []) ∧
      ∀ (op : Int) (ln : Chars) (t : List (Int × Chars)),
        (process_temp op ln t true).2 = [] := by
  obtain ⟨hspec, hmem, hjoin⟩ := runLoop_temp_spec pre
  refine ⟨hspec, hjoin, ?_, fun op ln t => rfl⟩
  constructor
  · intro ht
    rw [← hjoin, ht]
    rfl
  · intro htl
    rw [htl] at hjoin
    cases hc : (runLoop pre).temp with
    | nil => rfl
    | cons p rest =>
      rw [hc] at hjoin
      have hp2 : p.2 ≠ [] := hmem p (by rw [hc]; exact List.mem_cons_self p rest)
      have happ : p.2 ++ joinTexts rest = [] := by
        simpa [joinTexts, joinList_cons] using hjoin
      exact absurd (List.append_eq_nil.1 happ).1 hp2

/-- Claim C6: the inner HTML that `process_temp` renders for a completed
line is the in-order concatenation, over the buffer's (kind, text) pairs
(including the pair just appended), of the text escaped character by
character (space to one non-breaking-space entity, tab to four, everything
else unchanged), wrapped in a span of class `added` for INSERT, `deleted`
for DELETE, and left bare otherwise. -/
theorem c6_line_rendering (op : Int) (line : Chars) (temp : List (Int × Chars))
    (clear : Bool) :
    (process_temp op line temp clear).1 =
      joinList ((temp ++ [(op, line)]).map renderPairSpec) := by
  have hf : renderPair = renderPairSpec := funext renderPair_eq_renderPairSpec
  simp only [process_temp]
  rw [foldl_append_eq_joinList, List.nil_append, hf]

/-- Claim C9: full characterisation of `process_line` — the partial is the
whole text exactly when the text contains no newline (so in particular
`process_line("")` yields the empty-string partial `("", None, None)`);
otherwise the whole lines are the segments before each newline in order and
the remaining is the text after the last newline, or `None` when that text
is empty. -/
theorem c9_process_line_characterisation (text : Chars) :
    process_line text =
      if containsNl text then
        (none, some (linesBefore text),
          if tailAfterLastNewline text = [] then none
          else some (tailAfterLastNewline text))
      else (some text, none, none) :=
  process_line_eq text

/-- Witness for C10 at the initial loop state. -/
theorem c10_empty_line_span_witness :
    initState.temp = [] ∧
      (stepOp initState (DIFF_INSERT, str "\n") =
          { initState with
              diff_content :=
                initState.diff_content ++
                  [(initState.line_number, str "<span class=\"added\"></span>")]
              line_number := initState.line_number + 1
              lastOp := some DIFF_INSERT
              lastLine := some [] } ∧
        stepOp initState (DIFF_DELETE, str "\n") =
          { initState with
              diff_content :=
                initState.diff_content ++
                  [(initState.line_number, str "<span class=\"deleted\"></span>")]
              line_number := initState.line_number + 1
              lastOp := some DIFF_DELETE
              lastLine := some [] }) :=
  ⟨rfl, c10_empty_line_span initState rfl⟩

end WayDiffer
